import Mathlib

/-!
Verification of the solhydra report-aggregation pipeline (`lib/index.js`).

The shallow embedding below translates the pure data transformations of the
source file into Lean. Filesystem state is modelled explicitly by the `FS`
structure: each directory the code reads is an association list from file
name to file content, in directory-listing order. JavaScript objects built
with spread syntax (`{ ...memo, [key]: value }`) are modelled as association
lists with an `upsert` operation that replaces an existing key in place and
otherwise appends the new key at the end, which is exactly the JS semantics.
`fs.readFileSync` on a path that may not exist is modelled with `Option`
(`none` models the thrown exception); reads that the source guards with
`fs.existsSync` are total. The external markdown converter
(`showdown`'s `makeHtml`) is an opaque collaborator and is passed in as a
function parameter `mkHtml`.
-/

/-- Model of JavaScript `String.prototype.split('.')` on the character level:
split on every dot, keeping empty segments, with `"".split('.') = [""]`. -/
def splitOnDotAux : List Char → List (List Char)
  | [] => [[]]
  | c :: rest =>
    if c = '.' then [] :: splitOnDotAux rest
    else
      match splitOnDotAux rest with
      | [] => [[c]]
      | seg :: segs => (c :: seg) :: segs

/-- JavaScript `filePath.split('.')`. -/
def jsSplitDot (s : String) : List String :=
  (splitOnDotAux s.data).map (fun cs => ⟨cs⟩)

/-- Model of JavaScript `String.prototype.replace(pat, rep)` with a string
pattern: replaces only the first occurrence of `pat`. -/
def replaceFirstAux (pat rep : List Char) : List Char → List Char
  | [] => if pat.isEmpty then rep else []
  | c :: rest =>
    if pat.isPrefixOf (c :: rest) then rep ++ (c :: rest).drop pat.length
    else c :: replaceFirstAux pat rep rest

/-- JavaScript `s.replace(pat, rep)` (string pattern, first occurrence only). -/
def replaceFirst (s pat rep : String) : String :=
  ⟨replaceFirstAux pat.data rep.data s.data⟩

/-- Association-list lookup; models indexing a JS object by a key, and
existence/read of a file by name inside one directory listing. -/
def alookup {κ α : Type} [DecidableEq κ] : List (κ × α) → κ → Option α
  | [], _ => none
  | (k, v) :: rest, key => if k = key then some v else alookup rest key

/-- Models the JS object spread `{ ...memo, [k]: v }`: if `k` is already a
key its value is replaced in place, otherwise `(k, v)` is appended at the
end (JS insertion order). -/
def upsert {κ α : Type} [DecidableEq κ] (m : List (κ × α)) (k : κ) (v : α) :
    List (κ × α) :=
  if (alookup m k).isSome then m.map (fun p => if p.1 = k then (k, v) else p)
  else m ++ [(k, v)]

/-- Filesystem state of one workspace, as the source reads it:
`input/contracts_flatten`, `input/contracts_combine`, the nested
`input/contracts` tree (keyed by the path-segment list), and the per-tool
subdirectories of `output/`. -/
structure FS where
  flattenDir : List (String × String)
  combineDir : List (String × String)
  contractsTree : List (List String × String)
  outputDirs : List (String × List (String × String))

/-- `toolOutputFileTypeMap` from `lib/index.js` lines 31-43. -/
def toolOutputFileTypeMap : List (String × String) :=
  [("mythril", "markdown"),
   ("oyente", "text"),
   ("surya_graph", "image"),
   ("surya_describe", "text"),
   ("surya_parse", "text"),
   ("surya_ftrace", "text"),
   ("surya_inheritance", "image"),
   ("solhint", "text"),
   ("solidity-coverage", "html"),
   ("solidity-analyzer", "text"),
   ("solium", "text")]

/-- `AVAILABLE_TOOLS` from `lib/index.js` lines 46-54. -/
def AVAILABLE_TOOLS : List String :=
  ["mythril", "oyente", "solhint", "solidity-coverage", "solidity-analyzer",
   "surya", "solium"]

/-- Per-service output-directory bind mounts of `docker-compose.yml`: each
service writes only into the listed subdirectories of `output/`. -/
def dockerComposeOutputMounts : List (String × List String) :=
  [("mythril", ["mythril"]),
   ("oyente", ["oyente"]),
   ("solhint", ["solhint"]),
   ("solidity-coverage", ["solidity-coverage"]),
   ("solidity-analyzer", ["solidity-analyzer"]),
   ("surya", ["surya_graph", "surya_describe", "surya_parse", "surya_ftrace",
              "surya_inheritance"]),
   ("solium", ["solium"])]

/-- All directory names under `output/` that any docker-compose service can
create. -/
def composeOutputDirNames : List String :=
  (dockerComposeOutputMounts.map Prod.snd).flatten

/-- `getContractNames` (lines 346-349): list `input/contracts_flatten` and
drop `Migrations.sol`. -/
def getContractNames (fs : FS) : List String :=
  (fs.flattenDir.map Prod.fst).filter (fun filename => filename ≠ "Migrations.sol")

/-- The body of the `reduce` in `getSubDirPathSplitted` (lines 353-363):
given the segment count `n`, drop the last segment, append `.sol` to the
second-to-last, keep the rest. -/
def subDirStep (n : Nat) (memo : List String) (p : Nat × String) : List String :=
  if p.1 = n - 1 then memo
  else if p.1 = n - 2 then memo ++ [p.2 ++ ".sol"]
  else memo ++ [p.2]

/-- `getSubDirPathSplitted` (lines 353-363): `filePath.split('.')` followed
by the indexed `reduce`. -/
def getSubDirPathSplitted (filePath : String) : List String :=
  (jsSplitDot filePath).enum.foldl (subDirStep (jsSplitDot filePath).length) []

/-- The slug expression of `generateFileOutputs` (line 376):
`contractName.replace('.sol', '').replace(/\./g, '-').toLowerCase()`. -/
def contractSlug (contractName : String) : String :=
  ⟨(((replaceFirst contractName ".sol" "").data.map
      (fun c => if c = '.' then '-' else c)).map Char.toLower)⟩

/-- The three content variants of one contract (`content` object built by
`generateFileOutputs`); `none` models the JS `undefined` fields. -/
structure ContractContent where
  flatten : String
  combine : Option String
  original : Option String
  deriving DecidableEq

/-- One value of the object built by `generateFileOutputs`. -/
structure FileOutput where
  slug : String
  name : String
  content : ContractContent
  deriving DecidableEq

/-- The value `generateFileOutputs` stores for `contractName` (lines
375-388); `combine` and `original` are read only behind `fs.existsSync`
guards, and are `undefined` (`none`) when the file does not exist. -/
def makeFileOutput (fs : FS) (contractName : String) (flattenContent : String) :
    FileOutput :=
  { slug := contractSlug contractName
    name := contractName
    content :=
      { flatten := flattenContent
        combine :=
          if (alookup fs.combineDir contractName).isSome
          then alookup fs.combineDir contractName else none
        original :=
          if (alookup fs.contractsTree (getSubDirPathSplitted contractName)).isSome
          then alookup fs.contractsTree (getSubDirPathSplitted contractName)
          else none } }

/-- One step of the `reduce` in `generateFileOutputs`; the unguarded
`fs.readFileSync` of the flattened file is fallible, so the accumulator is
an `Option` and `none` models a thrown exception. -/
def fileOutputStep (fs : FS) (memo? : Option (List (String × FileOutput)))
    (contractName : String) : Option (List (String × FileOutput)) :=
  match memo? with
  | none => none
  | some memo =>
    match alookup fs.flattenDir contractName with
    | none => none
    | some flattenContent =>
        some (upsert memo contractName (makeFileOutput fs contractName flattenContent))

/-- `generateFileOutputs` (lines 372-391). -/
def generateFileOutputs (fs : FS) (contractNames : List String) :
    Option (List (String × FileOutput)) :=
  contractNames.foldl (fileOutputStep fs) (some [])

/-- `getToolOutputNames` (lines 398-402): list `output/` and keep only the
tool directories that contain at least one file. -/
def getToolOutputNames (fs : FS) : List String :=
  (fs.outputDirs.map Prod.fst).filter
    (fun dirName => ((alookup fs.outputDirs dirName).getD []).length ≠ 0)

/-- One tool's entry for one contract in `generateToolOutputs`; `type` is
`none` when the tool name is missing from `toolOutputFileTypeMap` (JS
`undefined`). -/
structure ToolOutput where
  type : Option String
  content : String
  deriving DecidableEq

/-- The body of the inner `reduce` of `generateToolOutputs` (lines 415-429):
skip the tool if the output file for this contract does not exist, otherwise
store its type and its content, converting markdown to HTML. -/
def toolOutputStep (mkHtml : String → String) (fs : FS) (contractName : String)
    (memoToolOutput : List (String × ToolOutput)) (toolOutputName : String) :
    List (String × ToolOutput) :=
  match alookup ((alookup fs.outputDirs toolOutputName).getD []) contractName with
  | none => memoToolOutput
  | some fileContent =>
      upsert memoToolOutput toolOutputName
        { type := alookup toolOutputFileTypeMap toolOutputName
          content :=
            if alookup toolOutputFileTypeMap toolOutputName = some "markdown"
            then mkHtml fileContent else fileContent }

/-- The inner `reduce` of `generateToolOutputs`: the per-contract map from
tool name to output. -/
def contractToolOutputs (mkHtml : String → String) (fs : FS)
    (toolOutputNames : List String) (contractName : String) :
    List (String × ToolOutput) :=
  toolOutputNames.foldl (toolOutputStep mkHtml fs contractName) []

/-- `generateToolOutputs` (lines 411-431). -/
def generateToolOutputs (mkHtml : String → String) (fs : FS)
    (contractNames toolOutputNames : List String) :
    List (String × List (String × ToolOutput)) :=
  contractNames.foldl
    (fun memo contractName =>
      upsert memo contractName (contractToolOutputs mkHtml fs toolOutputNames contractName))
    []

/-- Modelled from the spec: the slug derivation of §3 in the spec's own
words ("strip extension, replace each separator with a hyphen, lowercase"),
to be compared with `contractSlug` from the source. Missing from the source:
the source has no such helper; its slug expression removes the first
occurrence of ".sol" instead. -/
def stripSolExtension (name : String) : String :=
  if List.isSuffixOf ".sol".data name.data
  then ⟨name.data.take (name.data.length - 4)⟩ else name

/-- Modelled from the spec: slug derivation following the spec's words. -/
def slugSpecDerivation (name : String) : String :=
  ⟨(((stripSolExtension name).data.map
      (fun c => if c = '.' then '-' else c)).map Char.toLower)⟩

section AssocLemmas

variable {κ α : Type} [DecidableEq κ]

theorem alookup_append_of_some {l₁ : List (κ × α)} {k : κ} {v : α}
    (h : alookup l₁ k = some v) (l₂ : List (κ × α)) :
    alookup (l₁ ++ l₂) k = some v := by
  induction l₁ with
  | nil => simp [alookup] at h
  | cons p rest ih =>
    obtain ⟨a, b⟩ := p
    by_cases hak : a = k
    · simp [alookup, hak] at h ⊢; exact h
    · simp [alookup, hak] at h ⊢; exact ih h

theorem alookup_append_of_none {l₁ : List (κ × α)} {k : κ}
    (h : alookup l₁ k = none) (l₂ : List (κ × α)) :
    alookup (l₁ ++ l₂) k = alookup l₂ k := by
  induction l₁ with
  | nil => rfl
  | cons p rest ih =>
    obtain ⟨a, b⟩ := p
    by_cases hak : a = k
    · simp [alookup, hak] at h
    · simp [alookup, hak] at h ⊢; exact ih h

theorem alookup_isSome_iff (m : List (κ × α)) (k : κ) :
    (alookup m k).isSome ↔ k ∈ m.map Prod.fst := by
  induction m with
  | nil => simp [alookup]
  | cons p rest ih =>
    obtain ⟨a, b⟩ := p
    by_cases hak : a = k
    · simp [alookup, hak]
    · simp [alookup, hak, ih, Ne.symm hak]

theorem alookup_map_replace {m : List (κ × α)} {k : κ} (v : α)
    (h : (alookup m k).isSome) :
    alookup (m.map (fun p => if p.1 = k then (k, v) else p)) k = some v := by
  induction m with
  | nil => simp [alookup] at h
  | cons p rest ih =>
    obtain ⟨a, b⟩ := p
    simp only [List.map_cons]
    by_cases hak : a = k
    · rw [if_pos (by simpa using hak)]
      simp [alookup]
    · rw [if_neg (by simpa using hak)]
      simp only [alookup] at h ⊢
      rw [if_neg hak] at h ⊢
      exact ih h

theorem alookup_map_replace_ne (m : List (κ × α)) (k k' : κ) (v : α)
    (h : k' ≠ k) :
    alookup (m.map (fun p => if p.1 = k then (k, v) else p)) k' = alookup m k' := by
  induction m with
  | nil => rfl
  | cons p rest ih =>
    obtain ⟨a, b⟩ := p
    simp only [List.map_cons]
    by_cases hak : a = k
    · rw [if_pos (by simpa using hak)]
      simp only [alookup]
      rw [if_neg (fun hh => h hh.symm), if_neg (by rw [hak]; exact fun hh => h hh.symm)]
      exact ih
    · rw [if_neg (by simpa using hak)]
      simp only [alookup]
      by_cases hak' : a = k'
      · rw [if_pos hak', if_pos hak']
      · rw [if_neg hak', if_neg hak']
        exact ih

theorem upsert_alookup_self (m : List (κ × α)) (k : κ) (v : α) :
    alookup (upsert m k v) k = some v := by
  unfold upsert
  cases hs : alookup m k with
  | some w =>
    rw [if_pos (by simp [hs])]
    exact alookup_map_replace v (by simp [hs])
  | none =>
    rw [if_neg (by simp [hs])]
    rw [alookup_append_of_none hs]
    simp [alookup]

theorem upsert_alookup_ne (m : List (κ × α)) (k k' : κ) (v : α) (h : k' ≠ k) :
    alookup (upsert m k v) k' = alookup m k' := by
  unfold upsert
  cases hs : alookup m k with
  | some w =>
    rw [if_pos (by simp [hs])]
    exact alookup_map_replace_ne m k k' v h
  | none =>
    rw [if_neg (by simp [hs])]
    cases hmk : alookup m k' with
    | some w => exact alookup_append_of_some hmk _
    | none =>
      rw [alookup_append_of_none hmk]
      simp [alookup, Ne.symm h]

theorem upsert_of_none {m : List (κ × α)} {k : κ} (v : α)
    (h : alookup m k = none) : upsert m k v = m ++ [(k, v)] := by
  unfold upsert
  rw [if_neg (by simp [h])]

theorem upsert_map_fst_of_none {m : List (κ × α)} {k : κ} (v : α)
    (h : alookup m k = none) :
    (upsert m k v).map Prod.fst = m.map Prod.fst ++ [k] := by
  rw [upsert_of_none v h]; simp

theorem upsert_map_fst_subset (m : List (κ × α)) (k : κ) (v : α) :
    ∀ x ∈ (upsert m k v).map Prod.fst, x ∈ m.map Prod.fst ∨ x = k := by
  intro x hx
  unfold upsert at hx
  by_cases hs : (alookup m k).isSome
  · rw [if_pos hs] at hx
    simp only [List.map_map, List.mem_map] at hx
    obtain ⟨p, hp, hpx⟩ := hx
    by_cases hpk : p.1 = k
    · right
      simp only [Function.comp_apply, if_pos hpk] at hpx
      exact hpx.symm
    · left
      simp only [Function.comp_apply, if_neg hpk] at hpx
      exact hpx ▸ List.mem_map_of_mem Prod.fst hp
  · rw [if_neg hs] at hx
    simp only [List.map_append, List.mem_append] at hx
    rcases hx with hx | hx
    · exact Or.inl hx
    · right; simpa using hx

end AssocLemmas

section PathNormalizer

theorem subDirFold_low (n : Nat) (xs : List String) :
    ∀ (k : Nat) (memo : List String), k + xs.length + 2 ≤ n →
      (List.enumFrom k xs).foldl (subDirStep n) memo = memo ++ xs := by
  induction xs with
  | nil => intro k memo h; simp [List.enumFrom]
  | cons x rest ih =>
    intro k memo h
    simp only [List.length_cons] at h
    simp only [List.enumFrom, List.foldl_cons]
    have hstep : subDirStep n memo (k, x) = memo ++ [x] := by
      unfold subDirStep
      rw [if_neg (by omega), if_neg (by omega)]
    rw [hstep, ih (k + 1) (memo ++ [x]) (by omega)]
    simp

theorem getSubDirPathSplitted_of_split (s : String) (xs : List String) (y z : String)
    (h : jsSplitDot s = xs ++ [y, z]) :
    getSubDirPathSplitted s = xs ++ [y ++ ".sol"] := by
  unfold getSubDirPathSplitted
  rw [h]
  have hlen : (xs ++ [y, z]).length = xs.length + 2 := by simp
  rw [hlen]
  show (List.enumFrom 0 (xs ++ [y, z])).foldl (subDirStep (xs.length + 2)) [] = _
  rw [List.enumFrom_append]
  rw [List.foldl_append]
  rw [subDirFold_low (xs.length + 2) xs 0 [] (by omega)]
  simp only [List.nil_append, List.enumFrom, List.foldl_cons, List.foldl_nil]
  have h1 : subDirStep (xs.length + 2) xs (0 + xs.length, y) = xs ++ [y ++ ".sol"] := by
    unfold subDirStep
    rw [if_neg (by omega), if_pos (by omega)]
  rw [h1]
  unfold subDirStep
  rw [if_pos (by omega)]

end PathNormalizer

section ToolOutputLemmas

theorem cto_fold_preserves_none {mk : String → String} {fs : FS} {c t : String}
    (hfile : alookup ((alookup fs.outputDirs t).getD []) c = none) :
    ∀ (ts : List String) (memo : List (String × ToolOutput)),
      alookup memo t = none →
      alookup (ts.foldl (toolOutputStep mk fs c) memo) t = none := by
  intro ts
  induction ts with
  | nil => intro memo h; exact h
  | cons tHead rest ih =>
    intro memo h
    simp only [List.foldl_cons]
    apply ih
    by_cases hth : tHead = t
    · subst hth
      simp [toolOutputStep, hfile, h]
    · unfold toolOutputStep
      cases hf : alookup ((alookup fs.outputDirs tHead).getD []) c with
      | none => exact h
      | some txt =>
        simp only []
        rw [upsert_alookup_ne _ _ _ _ (fun hh => hth hh.symm)]
        exact h

theorem cto_absent {mk : String → String} {fs : FS} {c t : String}
    (ts : List String)
    (hfile : alookup ((alookup fs.outputDirs t).getD []) c = none) :
    alookup (contractToolOutputs mk fs ts c) t = none :=
  cto_fold_preserves_none hfile ts [] rfl

theorem cto_fold_not_mem {mk : String → String} {fs : FS} {c t : String} :
    ∀ (ts : List String), t ∉ ts →
    ∀ (memo : List (String × ToolOutput)),
      alookup memo t = none →
      alookup (ts.foldl (toolOutputStep mk fs c) memo) t = none := by
  intro ts
  induction ts with
  | nil => intro _ memo h; exact h
  | cons tHead rest ih =>
    intro hnot memo h
    simp only [List.mem_cons, not_or] at hnot
    simp only [List.foldl_cons]
    apply ih hnot.2
    unfold toolOutputStep
    cases hf : alookup ((alookup fs.outputDirs tHead).getD []) c with
    | none => exact h
    | some txt =>
      simp only []
      rw [upsert_alookup_ne _ _ _ _ hnot.1]
      exact h

theorem cto_not_mem {mk : String → String} {fs : FS} {c t : String}
    {ts : List String} (ht : t ∉ ts) :
    alookup (contractToolOutputs mk fs ts c) t = none :=
  cto_fold_not_mem ts ht [] rfl

theorem cto_fold_preserves_some {mk : String → String} {fs : FS} {c t : String}
    {out : ToolOutput}
    (hval : ∀ txt, alookup ((alookup fs.outputDirs t).getD []) c = some txt →
      out = { type := alookup toolOutputFileTypeMap t
              content := if alookup toolOutputFileTypeMap t = some "markdown"
                         then mk txt else txt }) :
    ∀ (ts : List String) (memo : List (String × ToolOutput)),
      alookup memo t = some out →
      alookup (ts.foldl (toolOutputStep mk fs c) memo) t = some out := by
  intro ts
  induction ts with
  | nil => intro memo h; exact h
  | cons tHead rest ih =>
    intro memo h
    simp only [List.foldl_cons]
    apply ih
    by_cases hth : tHead = t
    · subst hth
      unfold toolOutputStep
      cases hf : alookup ((alookup fs.outputDirs tHead).getD []) c with
      | none => exact h
      | some txt =>
        simp only []
        rw [hval txt hf]
        exact upsert_alookup_self _ _ _
    · unfold toolOutputStep
      cases hf : alookup ((alookup fs.outputDirs tHead).getD []) c with
      | none => exact h
      | some txt =>
        simp only []
        rw [upsert_alookup_ne _ _ _ _ (fun hh => hth hh.symm)]
        exact h

theorem cto_fold_mem {mk : String → String} {fs : FS} {c t txt : String}
    (hfile : alookup ((alookup fs.outputDirs t).getD []) c = some txt) :
    ∀ (ts : List String), t ∈ ts → ∀ (memo : List (String × ToolOutput)),
      alookup (ts.foldl (toolOutputStep mk fs c) memo) t =
        some { type := alookup toolOutputFileTypeMap t
               content := if alookup toolOutputFileTypeMap t = some "markdown"
                          then mk txt else txt } := by
  have hval : ∀ txt2, alookup ((alookup fs.outputDirs t).getD []) c = some txt2 →
      ({ type := alookup toolOutputFileTypeMap t
         content := if alookup toolOutputFileTypeMap t = some "markdown"
                    then mk txt else txt } : ToolOutput) =
      { type := alookup toolOutputFileTypeMap t
        content := if alookup toolOutputFileTypeMap t = some "markdown"
                   then mk txt2 else txt2 } := by
    intro txt2 h2
    rw [hfile] at h2
    cases h2
    rfl
  intro ts
  induction ts with
  | nil => intro h; cases h
  | cons tHead rest ih =>
    intro ht memo
    simp only [List.foldl_cons]
    by_cases hth : tHead = t
    · subst hth
      apply cto_fold_preserves_some (fun txt2 h2 => hval txt2 h2)
      unfold toolOutputStep
      rw [hfile]
      simp only []
      exact upsert_alookup_self _ _ _
    · rcases List.mem_cons.1 ht with hh | hh
      · exact absurd hh.symm hth
      · exact ih hh _

theorem cto_present {mk : String → String} {fs : FS} {c t txt : String}
    {ts : List String} (ht : t ∈ ts)
    (hfile : alookup ((alookup fs.outputDirs t).getD []) c = some txt) :
    alookup (contractToolOutputs mk fs ts c) t =
      some { type := alookup toolOutputFileTypeMap t
             content := if alookup toolOutputFileTypeMap t = some "markdown"
                        then mk txt else txt } :=
  cto_fold_mem hfile ts ht []

theorem cto_keys_subset {mk : String → String} {fs : FS} {c : String} :
    ∀ (ts : List String) (ts₀ : List String)
      (memo : List (String × ToolOutput)),
      (∀ x ∈ memo.map Prod.fst, x ∈ ts₀) → (∀ x ∈ ts, x ∈ ts₀) →
      ∀ x ∈ (ts.foldl (toolOutputStep mk fs c) memo).map Prod.fst, x ∈ ts₀ := by
  intro ts
  induction ts with
  | nil => intro ts₀ memo hm _ x hx; exact hm x hx
  | cons tHead rest ih =>
    intro ts₀ memo hm hts x hx
    simp only [List.foldl_cons] at hx
    refine ih ts₀ _ ?_ (fun y hy => hts y (List.mem_cons_of_mem _ hy)) x hx
    intro y hy
    unfold toolOutputStep at hy
    cases hf : alookup ((alookup fs.outputDirs tHead).getD []) c with
    | none =>
      rw [hf] at hy
      exact hm y hy
    | some txt =>
      rw [hf] at hy
      simp only [] at hy
      rcases upsert_map_fst_subset _ _ _ y hy with hy2 | hy2
      · exact hm y hy2
      · exact hy2 ▸ hts tHead (List.mem_cons_self _ _)

end ToolOutputLemmas

section GenerateToolOutputsLemmas

theorem gto_fold_entry {mk : String → String} {fs : FS} {ts : List String}
    {c : String} :
    ∀ (cs : List String) (memo : List (String × List (String × ToolOutput))),
      (∀ m, alookup memo c = some m → m = contractToolOutputs mk fs ts c) →
      ∀ m, alookup (cs.foldl (fun memo2 contractName =>
          upsert memo2 contractName (contractToolOutputs mk fs ts contractName)) memo) c
        = some m →
      m = contractToolOutputs mk fs ts c := by
  intro cs
  induction cs with
  | nil => intro memo hmemo m hm; exact hmemo m hm
  | cons cHead rest ih =>
    intro memo hmemo m hm
    simp only [List.foldl_cons] at hm
    refine ih _ ?_ m hm
    intro m2 hm2
    by_cases hch : cHead = c
    · subst hch
      rw [upsert_alookup_self] at hm2
      cases hm2
      rfl
    · rw [upsert_alookup_ne _ _ _ _ (fun hh => hch hh.symm)] at hm2
      exact hmemo m2 hm2

theorem gto_entry {mk : String → String} {fs : FS} {cs ts : List String}
    {c : String} {m : List (String × ToolOutput)}
    (h : alookup (generateToolOutputs mk fs cs ts) c = some m) :
    m = contractToolOutputs mk fs ts c :=
  gto_fold_entry cs [] (fun _ hm => by cases hm) m h

theorem gto_fold_preserves {mk : String → String} {fs : FS} {ts : List String}
    {c : String} :
    ∀ (cs : List String) (memo : List (String × List (String × ToolOutput))),
      alookup memo c = some (contractToolOutputs mk fs ts c) →
      alookup (cs.foldl (fun memo2 contractName =>
          upsert memo2 contractName (contractToolOutputs mk fs ts contractName)) memo) c
        = some (contractToolOutputs mk fs ts c) := by
  intro cs
  induction cs with
  | nil => intro memo h; exact h
  | cons cHead rest ih =>
    intro memo h
    simp only [List.foldl_cons]
    apply ih
    by_cases hch : cHead = c
    · subst hch
      exact upsert_alookup_self _ _ _
    · rw [upsert_alookup_ne _ _ _ _ (fun hh => hch hh.symm)]
      exact h

theorem gto_fold_mem {mk : String → String} {fs : FS} {ts : List String}
    {c : String} :
    ∀ (cs : List String), c ∈ cs → ∀ (memo : List (String × List (String × ToolOutput))),
      alookup (cs.foldl (fun memo2 contractName =>
          upsert memo2 contractName (contractToolOutputs mk fs ts contractName)) memo) c
        = some (contractToolOutputs mk fs ts c) := by
  intro cs
  induction cs with
  | nil => intro h; cases h
  | cons cHead rest ih =>
    intro hc memo
    simp only [List.foldl_cons]
    by_cases hch : cHead = c
    · subst hch
      exact gto_fold_preserves rest _ (upsert_alookup_self _ _ _)
    · rcases List.mem_cons.1 hc with hh | hh
      · exact absurd hh.symm hch
      · exact ih hh _

theorem gto_mem {mk : String → String} {fs : FS} {cs ts : List String}
    {c : String} (hc : c ∈ cs) :
    alookup (generateToolOutputs mk fs cs ts) c = some (contractToolOutputs mk fs ts c) :=
  gto_fold_mem cs hc []

end GenerateToolOutputsLemmas

section GenerateFileOutputsLemmas

theorem gfo_fold_none (fs : FS) :
    ∀ cs : List String, cs.foldl (fileOutputStep fs) none = none := by
  intro cs
  induction cs with
  | nil => rfl
  | cons c rest ih =>
    simp only [List.foldl_cons]
    exact ih

theorem gfo_fold_entry (fs : FS) :
    ∀ (cs : List String) (memo m : List (String × FileOutput)),
      cs.foldl (fileOutputStep fs) (some memo) = some m →
      ∀ n fo, alookup m n = some fo →
        alookup memo n = some fo ∨
        ∃ fc, alookup fs.flattenDir n = some fc ∧ fo = makeFileOutput fs n fc := by
  intro cs
  induction cs with
  | nil =>
    intro memo m h n fo hfo
    cases h
    exact Or.inl hfo
  | cons cHead rest ih =>
    intro memo m h n fo hfo
    simp only [List.foldl_cons] at h
    cases hflat : alookup fs.flattenDir cHead with
    | none =>
      rw [show fileOutputStep fs (some memo) cHead = none from by
            simp [fileOutputStep, hflat]] at h
      rw [gfo_fold_none fs rest] at h
      cases h
    | some fc =>
      rw [show fileOutputStep fs (some memo) cHead =
            some (upsert memo cHead (makeFileOutput fs cHead fc)) from by
            simp [fileOutputStep, hflat]] at h
      rcases ih _ m h n fo hfo with hleft | hright
      · by_cases hcn : cHead = n
        · subst hcn
          rw [upsert_alookup_self] at hleft
          cases hleft
          exact Or.inr ⟨fc, hflat, rfl⟩
        · rw [upsert_alookup_ne _ _ _ _ (fun hh => hcn hh.symm)] at hleft
          exact Or.inl hleft
      · exact Or.inr hright

theorem gfo_entry {fs : FS} {cs : List String} {m : List (String × FileOutput)}
    (h : generateFileOutputs fs cs = some m) :
    ∀ n fo, alookup m n = some fo →
      ∃ fc, alookup fs.flattenDir n = some fc ∧ fo = makeFileOutput fs n fc := by
  intro n fo hfo
  rcases gfo_fold_entry fs cs [] m h n fo hfo with hleft | hright
  · cases hleft
  · exact hright

theorem gfo_fold_keys (fs : FS) :
    ∀ (cs : List String) (memo : List (String × FileOutput)),
      cs.Nodup →
      (∀ n ∈ cs, (alookup fs.flattenDir n).isSome) →
      (∀ n ∈ cs, alookup memo n = none) →
      ∃ m, cs.foldl (fileOutputStep fs) (some memo) = some m ∧
           m.map Prod.fst = memo.map Prod.fst ++ cs := by
  intro cs
  induction cs with
  | nil =>
    intro memo _ _ _
    exact ⟨memo, rfl, by simp⟩
  | cons cHead rest ih =>
    intro memo hnodup hlook hmemo
    rcases List.nodup_cons.1 hnodup with ⟨hnotin, hnodup2⟩
    cases hflat : alookup fs.flattenDir cHead with
    | none =>
      exfalso
      have := hlook cHead (List.mem_cons_self _ _)
      rw [hflat] at this
      simp at this
    | some fc =>
      simp only [List.foldl_cons]
      rw [show fileOutputStep fs (some memo) cHead =
            some (upsert memo cHead (makeFileOutput fs cHead fc)) from by
            simp [fileOutputStep, hflat]]
      have hmemoC : alookup memo cHead = none := hmemo cHead (List.mem_cons_self _ _)
      have hup := upsert_of_none (makeFileOutput fs cHead fc) hmemoC
      obtain ⟨m, hm, hkeys⟩ := ih (upsert memo cHead (makeFileOutput fs cHead fc))
        hnodup2
        (fun n hn => hlook n (List.mem_cons_of_mem _ hn))
        (by
          intro n hn
          have hne : n ≠ cHead := fun hh => hnotin (hh ▸ hn)
          rw [upsert_alookup_ne _ _ _ _ hne]
          exact hmemo n (List.mem_cons_of_mem _ hn))
      refine ⟨m, hm, ?_⟩
      rw [hkeys, hup]
      simp

theorem gfo_keys {fs : FS} {cs : List String}
    (hnodup : cs.Nodup)
    (hlook : ∀ n ∈ cs, (alookup fs.flattenDir n).isSome) :
    ∃ m, generateFileOutputs fs cs = some m ∧ m.map Prod.fst = cs := by
  obtain ⟨m, hm, hkeys⟩ := gfo_fold_keys fs cs [] hnodup hlook (fun _ _ => rfl)
  exact ⟨m, hm, by simpa using hkeys⟩

end GenerateFileOutputsLemmas

/-- C1: for every canonical flattened filename with at least two dot-separated
segments, `getSubDirPathSplitted` splits on the dot, drops the final segment,
turns the second-to-last segment into the filename component by re-appending
the `.sol` extension, and keeps all earlier segments as directory components
in order; `Governance.Leader.LeaderGov.sol` yields
`["Governance", "Leader", "LeaderGov.sol"]`, and the two-segment name
`Token.sol` yields the length-1 path `["Token.sol"]` without error. -/
theorem C1_getSubDirPathSplitted_spec :
    (∀ (s : String) (xs : List String) (y z : String),
        jsSplitDot s = xs ++ [y, z] →
        getSubDirPathSplitted s = xs ++ [y ++ ".sol"])
    ∧ getSubDirPathSplitted "Governance.Leader.LeaderGov.sol" =
        ["Governance", "Leader", "LeaderGov.sol"]
    ∧ getSubDirPathSplitted "Token.sol" = ["Token.sol"] :=
  ⟨getSubDirPathSplitted_of_split, by decide, by decide⟩

/-- Witness for C1 at the concrete three-segment name `Dir.File.sol`. -/
theorem C1_witness :
    getSubDirPathSplitted "Dir.File.sol" = ["Dir"] ++ ["File" ++ ".sol"] :=
  C1_getSubDirPathSplitted_spec.1 "Dir.File.sol" ["Dir"] "File" "sol" (by decide)

/-- C4 counterexample: on the dot-free input `"Token"` the source's
`getSubDirPathSplitted` returns the empty path normally; it does not fail,
and no `MalformedIdentityError` exists anywhere in the source. -/
theorem C4_counterexample : getSubDirPathSplitted "Token" = [] := by decide

/-- C4 amended: for every input with fewer than 2 dot-separated segments the
Path Normalizer returns the empty nested path `[]` (the single segment is
dropped by the reduce); it does not raise any error. -/
theorem C4_no_dot_returns_empty (s : String)
    (h : (jsSplitDot s).length < 2) : getSubDirPathSplitted s = [] := by
  unfold getSubDirPathSplitted
  generalize harr : jsSplitDot s = arr at h ⊢
  rcases arr with _ | ⟨x, rest⟩
  · rfl
  · rcases rest with _ | ⟨x2, rest2⟩
    · show (List.enumFrom 0 [x]).foldl (subDirStep 1) [] = []
      simp [List.enumFrom, subDirStep]
    · exfalso
      simp only [List.length_cons] at h
      omega

/-- Witness for C4 amended at the concrete dot-free input `"NoDotsHere"`. -/
theorem C4_witness : getSubDirPathSplitted "NoDotsHere" = [] :=
  C4_no_dot_returns_empty "NoDotsHere" (by decide)

/-- C2: for every (tool, contract) pair whose output file does not exist,
the aggregated model has no entry for that pair under that contract (for a
listed contract the per-contract map exists but lacks the tool key), and
`generateToolOutputs` is total, so building the model does not raise. -/
theorem C2_missing_file_pair_absent (mkHtml : String → String) (fs : FS)
    (contractNames toolOutputNames : List String) (tool contract : String)
    (habs : alookup ((alookup fs.outputDirs tool).getD []) contract = none) :
    (∀ m, alookup (generateToolOutputs mkHtml fs contractNames toolOutputNames)
            contract = some m →
        alookup m tool = none)
    ∧ (contract ∈ contractNames →
        alookup (generateToolOutputs mkHtml fs contractNames toolOutputNames)
            contract =
          some (contractToolOutputs mkHtml fs toolOutputNames contract)
        ∧ alookup (contractToolOutputs mkHtml fs toolOutputNames contract) tool
            = none) := by
  constructor
  · intro m hm
    rw [gto_entry hm]
    exact cto_absent _ habs
  · intro hc
    exact ⟨gto_mem hc, cto_absent _ habs⟩

/-- Concrete filesystem for the C2 witness: the `solhint` output directory
contains a file, but none named `Token.sol`. -/
def fsC2 : FS :=
  { flattenDir := [("Token.sol", "F")]
    combineDir := []
    contractsTree := []
    outputDirs := [("solhint", [("Other.sol", "x")])] }

/-- Witness for C2: the model entry for `Token.sol` exists and has no
`solhint` key. -/
theorem C2_witness :
    alookup (generateToolOutputs (fun s => s) fsC2 ["Token.sol"] ["solhint"])
        "Token.sol" =
      some (contractToolOutputs (fun s => s) fsC2 ["solhint"] "Token.sol")
    ∧ alookup (contractToolOutputs (fun s => s) fsC2 ["solhint"] "Token.sol")
        "solhint" = none :=
  (C2_missing_file_pair_absent (fun s => s) fsC2 ["Token.sol"] ["solhint"]
    "solhint" "Token.sol" (by decide)).2 (by decide)

/-- C3: a tool whose output directory exists but holds zero files is dropped
by `getToolOutputNames`, so its name appears as a key under no contract of
the aggregated model. -/
theorem C3_empty_tool_dir_excluded (mkHtml : String → String) (fs : FS)
    (contractNames : List String) (tool : String)
    (hempty : alookup fs.outputDirs tool = some []) :
    ∀ contract m,
      alookup (generateToolOutputs mkHtml fs contractNames
          (getToolOutputNames fs)) contract = some m →
      alookup m tool = none := by
  intro c m hm
  rw [gto_entry hm]
  apply cto_not_mem
  intro hmem
  unfold getToolOutputNames at hmem
  rw [List.mem_filter] at hmem
  have h2 := hmem.2
  simp [hempty] at h2

/-- Concrete filesystem for the C3 witness: `mythril` has an empty output
directory, `solhint` a non-empty one. -/
def fsC3 : FS :=
  { flattenDir := [("Token.sol", "F")]
    combineDir := []
    contractsTree := []
    outputDirs := [("mythril", []), ("solhint", [("Token.sol", "no issues")])] }

/-- Witness for C3: with an empty `mythril` directory, the entry for
`Token.sol` carries only `solhint`, and `mythril` is absent. -/
theorem C3_witness :
    alookup [("solhint", ({ type := some "text", content := "no issues" } : ToolOutput))]
        "mythril" = none :=
  C3_empty_tool_dir_excluded (fun s => s) fsC3 ["Token.sol"] "mythril" (by decide)
    "Token.sol" [("solhint", { type := some "text", content := "no issues" })]
    (by decide)

/-- C5 counterexample: the distinct canonical names `A.B.sol` and `A-B.sol`
both derive the slug `a-b`, yet `generateFileOutputs` succeeds and keeps
both entries — the run raises no error on a slug collision. -/
def fsC5 : FS :=
  { flattenDir := [("A.B.sol", "x"), ("A-B.sol", "y")]
    combineDir := []
    contractsTree := []
    outputDirs := [] }

/-- C5 counterexample theorem: the run with two slug-colliding names
succeeds, both contracts are present, and their slugs are equal. -/
theorem C5_counterexample :
    (generateFileOutputs fsC5 (getContractNames fsC5)).isSome = true
    ∧ ((generateFileOutputs fsC5 (getContractNames fsC5)).getD []).map Prod.fst
        = ["A.B.sol", "A-B.sol"]
    ∧ ((generateFileOutputs fsC5 (getContractNames fsC5)).getD []).map
        (fun p => p.2.slug) = ["a-b", "a-b"]
    ∧ ("A.B.sol" : String) ≠ "A-B.sol" := by decide

/-- C5 amended: the source performs no slug-collision check; for every
duplicate-free canonical listing whose files exist, the run succeeds with
one entry per canonical name (the model is keyed by canonical name, so
entries are not overwritten), even when distinct names share a slug. -/
theorem C5_slug_collision_no_error (fs : FS) (contractNames : List String)
    (hnodup : contractNames.Nodup)
    (hlook : ∀ n ∈ contractNames, (alookup fs.flattenDir n).isSome) :
    ∃ m, generateFileOutputs fs contractNames = some m
      ∧ m.map Prod.fst = contractNames :=
  gfo_keys hnodup hlook

/-- Concrete filesystem for the C5 witness, with a slug collision between
`X.Y.sol` and `X-Y.sol`. -/
def fsC5w : FS :=
  { flattenDir := [("X.Y.sol", "x"), ("X-Y.sol", "y")]
    combineDir := []
    contractsTree := []
    outputDirs := [] }

/-- Witness for C5 amended at a listing with a slug collision. -/
theorem C5_witness :
    ∃ m, generateFileOutputs fsC5w ["X.Y.sol", "X-Y.sol"] = some m
      ∧ m.map Prod.fst = ["X.Y.sol", "X-Y.sol"] :=
  C5_slug_collision_no_error fsC5w ["X.Y.sol", "X-Y.sol"] (by decide) (by decide)

/-- C6: for a (tool, contract) pair whose output file exists, the stored
entry carries the tool's configured content type, and its content is the
markdown-to-HTML conversion of the file text when that type is `markdown`
and the file text unchanged otherwise. -/
theorem C6_tool_output_content (mkHtml : String → String) (fs : FS)
    (contractNames toolOutputNames : List String) (tool contract txt : String)
    (hc : contract ∈ contractNames) (ht : tool ∈ toolOutputNames)
    (hfile : alookup ((alookup fs.outputDirs tool).getD []) contract = some txt) :
    alookup (generateToolOutputs mkHtml fs contractNames toolOutputNames)
        contract =
      some (contractToolOutputs mkHtml fs toolOutputNames contract)
    ∧ alookup (contractToolOutputs mkHtml fs toolOutputNames contract) tool =
      some { type := alookup toolOutputFileTypeMap tool
             content := if alookup toolOutputFileTypeMap tool = some "markdown"
                        then mkHtml txt else txt } :=
  ⟨gto_mem hc, cto_present ht hfile⟩

/-- Concrete filesystem for the C6 witness: `solhint` (type `text`) wrote
`"no issues"` for `Token.sol`, `mythril` (type `markdown`) wrote `"# head"`. -/
def fsC6 : FS :=
  { flattenDir := [("Token.sol", "F")]
    combineDir := []
    contractsTree := []
    outputDirs := [("solhint", [("Token.sol", "no issues")]),
                   ("mythril", [("Token.sol", "# head")])] }

/-- A concrete stand-in for the opaque markdown converter, used only to
instantiate witnesses. -/
def mkHtmlC6 : String → String := fun s => "<html>" ++ s ++ "</html>"

/-- Witness for C6: the `mythril` markdown file is stored converted, and
(by evaluation) the `solhint` text file is stored with type `text` and
content exactly `"no issues"`. -/
theorem C6_witness :
    (alookup (generateToolOutputs mkHtmlC6 fsC6 ["Token.sol"]
          ["solhint", "mythril"]) "Token.sol" =
        some (contractToolOutputs mkHtmlC6 fsC6 ["solhint", "mythril"] "Token.sol")
      ∧ alookup (contractToolOutputs mkHtmlC6 fsC6 ["solhint", "mythril"]
          "Token.sol") "mythril" =
        some { type := alookup toolOutputFileTypeMap "mythril"
               content :=
                 if alookup toolOutputFileTypeMap "mythril" = some "markdown"
                 then mkHtmlC6 "# head" else "# head" })
    ∧ alookup (contractToolOutputs mkHtmlC6 fsC6 ["solhint", "mythril"]
        "Token.sol") "solhint" =
      some { type := some "text", content := "no issues" } :=
  ⟨C6_tool_output_content mkHtmlC6 fsC6 ["Token.sol"] ["solhint", "mythril"]
      "mythril" "Token.sol" "# head" (by decide) (by decide) (by decide),
   by decide⟩

/-- C7: for a duplicate-free flattened listing, the report model built by
`generateFileOutputs` over `getContractNames` has exactly one entry per
listed filename other than `Migrations.sol`, in listing order, and
`Migrations.sol` never appears. -/
theorem C7_report_contracts_exact (fs : FS)
    (hnodup : (fs.flattenDir.map Prod.fst).Nodup) :
    ∃ m, generateFileOutputs fs (getContractNames fs) = some m
      ∧ m.map Prod.fst =
          (fs.flattenDir.map Prod.fst).filter (fun n => n ≠ "Migrations.sol")
      ∧ "Migrations.sol" ∉ m.map Prod.fst := by
  obtain ⟨m, hm, hkeys⟩ := @gfo_keys fs (getContractNames fs)
    (hnodup.filter _)
    (by
      intro n hn
      rw [alookup_isSome_iff]
      exact List.mem_of_mem_filter hn)
  refine ⟨m, hm, ?_, ?_⟩
  · rw [hkeys]; rfl
  · rw [hkeys]
    unfold getContractNames
    intro hmem
    have h2 := (List.mem_filter.1 hmem).2
    simp at h2

/-- Concrete filesystem for the C7 witness: a listing containing
`Migrations.sol` and two ordinary contracts. -/
def fsC7 : FS :=
  { flattenDir := [("Token.sol", "F"), ("Migrations.sol", "M"), ("A.B.sol", "G")]
    combineDir := []
    contractsTree := []
    outputDirs := [] }

/-- Witness for C7 at a concrete listing with a `Migrations.sol` entry. -/
theorem C7_witness :
    ∃ m, generateFileOutputs fsC7 (getContractNames fsC7) = some m
      ∧ m.map Prod.fst =
          (fsC7.flattenDir.map Prod.fst).filter (fun n => n ≠ "Migrations.sol")
      ∧ "Migrations.sol" ∉ m.map Prod.fst :=
  C7_report_contracts_exact fsC7 (by decide)

/-- C8 counterexample: for the canonical name `A.solidity.Token.sol` the
model's slug is `aidity-token-sol` (the code removes the FIRST occurrence of
`.sol`), while the spec's strip-the-extension derivation gives
`a-solidity-token`; the two differ. -/
def fsC8 : FS :=
  { flattenDir := [("A.solidity.Token.sol", "src")]
    combineDir := []
    contractsTree := []
    outputDirs := [] }

/-- C8 counterexample theorem. -/
theorem C8_counterexample :
    ((generateFileOutputs fsC8 (getContractNames fsC8)).getD []).map
        (fun p => p.2.slug) = ["aidity-token-sol"]
    ∧ slugSpecDerivation "A.solidity.Token.sol" = "a-solidity-token"
    ∧ ("aidity-token-sol" : String) ≠ "a-solidity-token" := by decide

/-- C8 amended: every contract's slug in the model equals
`contractSlug`: remove the FIRST occurrence of the substring `.sol`, then
replace each dot with a hyphen and lowercase. This agrees with the spec's
strip-the-extension derivation on names whose only `.sol` occurrence is the
final extension, e.g. both spec scenarios. -/
theorem C8_slug_replace_first (fs : FS) (contractNames : List String)
    (m : List (String × FileOutput)) (contractName : String) (fo : FileOutput)
    (hm : generateFileOutputs fs contractNames = some m)
    (hfo : alookup m contractName = some fo) :
    fo.slug = contractSlug contractName
    ∧ contractSlug "Governance.Leader.LeaderGov.sol" = "governance-leader-leadergov"
    ∧ contractSlug "Token.sol" = "token"
    ∧ slugSpecDerivation "Governance.Leader.LeaderGov.sol" =
        "governance-leader-leadergov"
    ∧ slugSpecDerivation "Token.sol" = "token" := by
  obtain ⟨fc, hfc, rfl⟩ := gfo_entry hm contractName fo hfo
  exact ⟨rfl, by decide, by decide, by decide, by decide⟩

/-- Concrete filesystem for the C8 witness. -/
def fsC8w : FS :=
  { flattenDir := [("Token.sol", "F")]
    combineDir := []
    contractsTree := []
    outputDirs := [] }

/-- Witness for C8 amended at the concrete listing `["Token.sol"]`. -/
theorem C8_witness :
    (makeFileOutput fsC8w "Token.sol" "F").slug = contractSlug "Token.sol"
    ∧ contractSlug "Governance.Leader.LeaderGov.sol" = "governance-leader-leadergov"
    ∧ contractSlug "Token.sol" = "token"
    ∧ slugSpecDerivation "Governance.Leader.LeaderGov.sol" =
        "governance-leader-leadergov"
    ∧ slugSpecDerivation "Token.sol" = "token" :=
  C8_slug_replace_first fsC8w ["Token.sol"]
    [("Token.sol", makeFileOutput fsC8w "Token.sol" "F")] "Token.sol"
    (makeFileOutput fsC8w "Token.sol" "F") (by decide) (by decide)

/-- C9: every model entry's `original` variant equals the (optional) file at
the nested path reconstructed by the Path Normalizer, its `combine` variant
equals the (optional) file of the same canonical name in the combined
directory — absent files give `none`, not an empty string or an error — and
its `flatten` variant is exactly the always-read flattened file's content. -/
theorem C9_content_variants (fs : FS) (contractNames : List String)
    (m : List (String × FileOutput)) (contractName : String) (fo : FileOutput)
    (hm : generateFileOutputs fs contractNames = some m)
    (hfo : alookup m contractName = some fo) :
    fo.content.original =
        alookup fs.contractsTree (getSubDirPathSplitted contractName)
    ∧ fo.content.combine = alookup fs.combineDir contractName
    ∧ alookup fs.flattenDir contractName = some fo.content.flatten := by
  obtain ⟨fc, hfc, rfl⟩ := gfo_entry hm contractName fo hfo
  refine ⟨?_, ?_, hfc⟩
  · simp only [makeFileOutput]
    cases h : alookup fs.contractsTree (getSubDirPathSplitted contractName) <;>
      simp [h]
  · simp only [makeFileOutput]
    cases h : alookup fs.combineDir contractName <;> simp [h]

/-- Concrete filesystem for the C9 witness: `Token.sol` has all three
variants, and the original sits at the reconstructed nested path. -/
def fsC9 : FS :=
  { flattenDir := [("Token.sol", "F")]
    combineDir := [("Token.sol", "C")]
    contractsTree := [(["Token.sol"], "O")]
    outputDirs := [] }

/-- Witness for C9 at the concrete listing `["Token.sol"]`. -/
theorem C9_witness :
    (makeFileOutput fsC9 "Token.sol" "F").content.original =
        alookup fsC9.contractsTree (getSubDirPathSplitted "Token.sol")
    ∧ (makeFileOutput fsC9 "Token.sol" "F").content.combine =
        alookup fsC9.combineDir "Token.sol"
    ∧ alookup fsC9.flattenDir "Token.sol" =
        some (makeFileOutput fsC9 "Token.sol" "F").content.flatten :=
  C9_content_variants fsC9 ["Token.sol"]
    [("Token.sol", makeFileOutput fsC9 "Token.sol" "F")] "Token.sol"
    (makeFileOutput fsC9 "Token.sol" "F") (by decide) (by decide)

/-- C10: when the output root only holds directories created by the
docker-compose bind mounts, every tool key of the aggregated model lies in
the fixed domain of `toolOutputFileTypeMap` and is never the requestable
name `surya`; `surya` is requestable (in `AVAILABLE_TOOLS`) but has no
content type, and its results surface only through the five mounted
`surya_*` directories, each with its fixed content type. -/
theorem C10_tool_keys_domain (mkHtml : String → String) (fs : FS)
    (contractNames : List String)
    (hdirs : ∀ d ∈ fs.outputDirs.map Prod.fst, d ∈ composeOutputDirNames) :
    (∀ contract m tool,
        alookup (generateToolOutputs mkHtml fs contractNames
            (getToolOutputNames fs)) contract = some m →
        tool ∈ m.map Prod.fst →
        (alookup toolOutputFileTypeMap tool).isSome ∧ tool ≠ "surya")
    ∧ "surya" ∈ AVAILABLE_TOOLS
    ∧ alookup toolOutputFileTypeMap "surya" = none
    ∧ alookup dockerComposeOutputMounts "surya" =
        some ["surya_graph", "surya_describe", "surya_parse", "surya_ftrace",
              "surya_inheritance"]
    ∧ alookup toolOutputFileTypeMap "surya_graph" = some "image"
    ∧ alookup toolOutputFileTypeMap "surya_describe" = some "text"
    ∧ alookup toolOutputFileTypeMap "surya_parse" = some "text"
    ∧ alookup toolOutputFileTypeMap "surya_ftrace" = some "text"
    ∧ alookup toolOutputFileTypeMap "surya_inheritance" = some "image" := by
  refine ⟨?_, by decide, by decide, by decide, by decide, by decide, by decide,
    by decide, by decide⟩
  intro c m t hm ht
  rw [gto_entry hm] at ht
  have htts : t ∈ getToolOutputNames fs :=
    cto_keys_subset (getToolOutputNames fs) (getToolOutputNames fs) []
      (by simp) (fun x hx => hx) t ht
  have htdirs : t ∈ fs.outputDirs.map Prod.fst := by
    unfold getToolOutputNames at htts
    exact (List.mem_filter.1 htts).1
  have hall : ∀ d ∈ composeOutputDirNames,
      (alookup toolOutputFileTypeMap d).isSome ∧ d ≠ "surya" := by decide
  exact hall t (hdirs t htdirs)

/-- Concrete filesystem for the C10 witness: only the `surya_graph` mount
directory received output. -/
def fsC10 : FS :=
  { flattenDir := [("Token.sol", "F")]
    combineDir := []
    contractsTree := []
    outputDirs := [("surya_graph", [("Token.sol", "g")])] }

/-- Witness for C10 at the concrete tool key `surya_graph`. -/
theorem C10_witness :
    (alookup toolOutputFileTypeMap "surya_graph").isSome
    ∧ "surya_graph" ≠ "surya" :=
  (C10_tool_keys_domain (fun s => s) fsC10 ["Token.sol"] (by decide)).1
    "Token.sol"
    (contractToolOutputs (fun s => s) fsC10 ["surya_graph"] "Token.sol")
    "surya_graph" (by decide) (by decide)
